import Mathlib

/-!
Verification of the analytic pipeline of `scripts/dataprocessing.py`
(class `FinancialAnalyzer`).

Modelling conventions of the shallow embedding:

* A pandas cell holding a float-or-NaN is `Option ℚ` (`none` = NaN); prices
  and derived values are exact rationals.
* A DataFrame is an association list from column names to columns
  (`Frame`); the per-symbol dictionary `self.data` is an association list
  from symbol to `Frame`.
* A per-symbol method body that may raise (inside the source's
  `try/except`) is a function `Frame → Frame × Option α`: the new stored
  frame plus `some value` on success, `none` when the body raised before
  producing a value (only a missing column raises in these bodies).
  `runOp` is the common loop over `self.data.items()` with the
  log-and-continue policy.
* Statistics follow pandas semantics: `pct_change` puts NaN at index 0,
  `cumprod`/`cummax`/`min`/`mean`/`std` skip NaN entries, `std` uses the
  sample variance (ddof = 1) and is NaN when fewer than two defined
  entries exist.  `pct_change` is modelled without the implicit pad fill
  (all series the claims touch have fully defined Close columns, where
  the two semantics agree).
* Real division by zero in ℚ/ℝ yields the junk value 0 where IEEE floats
  would give ±inf/NaN; no claim's verdict depends on the junk value.
-/

/-- A pandas cell: a float that may be NaN. -/
abbrev Cell := Option ℚ

/-- A DataFrame column. -/
abbrev Col := List Cell

/-- A DataFrame: association list of column name to column. -/
abbrev Frame := List (String × Col)

/-- `df[name]`, `none` when the column is missing (a KeyError in pandas). -/
def getCol (name : String) : Frame → Option Col
  | [] => none
  | (n, c) :: rest => if n = name then some c else getCol name rest

/-- `df[name] = col`: replace the column if present, else append it. -/
def setCol (name : String) (col : Col) : Frame → Frame
  | [] => [(name, col)]
  | (n, c) :: rest =>
      if n = name then (name, col) :: rest else (n, c) :: setCol name col rest

/-- Remove a column (used by `set_index`, which consumes the column). -/
def removeCol (name : String) : Frame → Frame
  | [] => []
  | (n, c) :: rest => if n = name then rest else (n, c) :: removeCol name rest

/-- The defined (non-NaN) entries of a column, in order. -/
def definedVals (c : Col) : List ℚ := c.filterMap id

/-- pandas `Series.mean()` (skips NaN): NaN when no defined entry. -/
def listMean (l : List ℚ) : Option ℚ :=
  if l.isEmpty then none else some (l.sum / l.length)

/-- pandas `Series.var(ddof=1)` over defined entries: NaN when fewer than
two values. -/
def sampleVar (l : List ℚ) : Option ℚ :=
  if l.length < 2 then none
  else some (((l.map fun x => (x - l.sum / l.length) ^ 2).sum) / ((l.length : ℚ) - 1))

/-- pandas `Series.std(ddof=1)` of a column, skipping NaN entries. -/
noncomputable def stdO (c : Col) : Option ℝ :=
  (sampleVar (definedVals c)).map fun v => Real.sqrt (v : ℝ)

/-- `Series.pct_change()`: NaN at index 0, `cur/prev - 1` afterwards
(NaN wherever an operand is NaN). -/
def pctChange : Col → Col
  | [] => []
  | x :: tail =>
      none :: List.zipWith
        (fun prev cur => prev.bind fun p => cur.map fun v => v / p - 1)
        (x :: tail) tail

/-- Elementwise `1 + s` on a column (NaN propagates). -/
def oadd1 : Col → Col := List.map (Option.map fun x => 1 + x)

/-- Elementwise `s - 1` on a column (NaN propagates). -/
def osub1 : Col → Col := List.map (Option.map fun x => x - 1)

/-- pandas `Series.cumprod()` (skipna): NaN entries stay NaN and do not
enter the running product. -/
def cumprodFrom (acc : ℚ) : Col → Col
  | [] => []
  | none :: rest => none :: cumprodFrom acc rest
  | some x :: rest => some (acc * x) :: cumprodFrom (acc * x) rest

/-- pandas `Series.cummax()` (skipna). -/
def cummaxFrom (acc : Option ℚ) : Col → Col
  | [] => []
  | none :: rest => none :: cummaxFrom acc rest
  | some x :: rest =>
      let m := match acc with
        | none => x
        | some a => max a x
      some m :: cummaxFrom (some m) rest

/-- Elementwise difference of two columns (NaN propagates). -/
def colSub (a b : Col) : Col :=
  List.zipWith (fun x y => x.bind fun p => y.map fun q => p - q) a b

/-- pandas `Series.min()` (skipna): NaN when no defined entry. -/
def colMin (c : Col) : Option ℚ :=
  match definedVals c with
  | [] => none
  | x :: xs => some (xs.foldl min x)

/-- `(1 + df[Close].pct_change()).cumprod() - 1` (source lines 84 and 167). -/
def cumulativeReturn (c : Col) : Col :=
  osub1 (cumprodFrom 1 (oadd1 (pctChange c)))

/-- The Drawdown column of `calculate_max_drawdown`:
cumulative return minus its running peak. -/
def drawdownCol (c : Col) : Col :=
  colSub (cumulativeReturn c) (cummaxFrom none (cumulativeReturn c))

/-- `Series.rolling(window=w).mean()`: NaN until a full window of defined
values is available. -/
def rollingMean (w : Nat) (c : Col) : Col :=
  (List.range c.length).map fun i =>
    if i + 1 < w then none
    else
      let win := (c.drop (i + 1 - w)).take w
      if win.all (fun x => x.isSome) then
        some ((win.filterMap id).sum / (w : ℚ))
      else none

/-- Body of one `calculate_volatility` loop iteration: assigns the
`Daily Return` column, returns the std of the daily returns; raises
(`none`) when `Close` is missing. -/
noncomputable def volatilityStep (f : Frame) : Frame × Option (Option ℝ) :=
  match getCol "Close" f with
  | none => (f, none)
  | some c =>
      let dr := pctChange c
      (setCol "Daily Return" dr f, some (stdO dr))

/-- `mean/std * sqrt(252)` of the daily-return column, as in
`calculate_sharpe_ratio` line 134; NaN (`none`) when mean or std is NaN. -/
noncomputable def sharpeOf (c : Col) : Option ℝ :=
  match listMean (definedVals c), sampleVar (definedVals c) with
  | some m, some v => some ((m : ℝ) / Real.sqrt (v : ℝ) * Real.sqrt 252)
  | _, _ => none

/-- Body of one `calculate_sharpe_ratio` loop iteration. -/
noncomputable def sharpeStep (f : Frame) : Frame × Option (Option ℝ) :=
  match getCol "Close" f with
  | none => (f, none)
  | some c =>
      let dr := pctChange c
      (setCol "Daily Return" dr f, some (sharpeOf dr))

/-- Body of one `calculate_max_drawdown` loop iteration: assigns
`Cumulative Return`, `Peak`, `Drawdown` columns, returns `min(Drawdown)`. -/
def maxDrawdownStep (f : Frame) : Frame × Option (Option ℚ) :=
  match getCol "Close" f with
  | none => (f, none)
  | some c =>
      let cum := cumulativeReturn c
      let peak := cummaxFrom none cum
      let dd := colSub cum peak
      (setCol "Drawdown" dd (setCol "Peak" peak (setCol "Cumulative Return" cum f)),
       some (colMin dd))

/-- Body of one `calculate_moving_average` loop iteration: assigns the
`{window}-Day MA` column (no value is returned by the source loop). -/
def movingAverageStep (w : Nat) (f : Frame) : Frame :=
  match getCol "Close" f with
  | none => f
  | some c => setCol (toString w ++ "-Day MA") (rollingMean w c) f

/-- The per-symbol loop shared by the statistic methods: each symbol's
body runs inside `try/except`; on success the value is inserted into the
result dict, on a raise the symbol is skipped and processing continues.
Returns (new `self.data`, result dict in iteration order). -/
def runOp {α : Type} (step : Frame → Frame × Option α) :
    List (String × Frame) → List (String × Frame) × List (String × α)
  | [] => ([], [])
  | (s, f) :: rest =>
      let r := step f
      let next := runOp step rest
      ((s, r.1) :: next.1,
       match r.2 with
       | some v => (s, v) :: next.2
       | none => next.2)

/-- `calculate_volatility` over the whole `self.data` dictionary. -/
noncomputable def calculate_volatility
    (data : List (String × Frame)) : List (String × Frame) × List (String × Option ℝ) :=
  runOp volatilityStep data

/-- `calculate_sharpe_ratio` over the whole `self.data` dictionary. -/
noncomputable def calculate_sharpe_ratios
    (data : List (String × Frame)) : List (String × Frame) × List (String × Option ℝ) :=
  runOp sharpeStep data

/-- `calculate_max_drawdown` over the whole `self.data` dictionary. -/
def calculate_max_drawdown
    (data : List (String × Frame)) : List (String × Frame) × List (String × Option ℚ) :=
  runOp maxDrawdownStep data

/-- `calculate_moving_average` over the whole `self.data` dictionary. -/
def calculate_moving_average (w : Nat)
    (data : List (String × Frame)) : List (String × Frame) :=
  data.map fun p => (p.1, movingAverageStep w p.2)

/-- Forward fill of one column, carrying the last valid value. -/
def ffillCol : Cell → Col → Col
  | _, [] => []
  | last, none :: rest => last :: ffillCol last rest
  | _, some x :: rest => some x :: ffillCol (some x) rest

/-- `df.fillna(method=ffill)`: forward fill every column independently. -/
def ffillFrame (f : Frame) : Frame :=
  f.map fun p => (p.1, ffillCol none p.2)

/-- Number of rows of a frame (length of its first column). -/
def nRows : Frame → Nat
  | [] => 0
  | p :: _ => p.2.length

/-- Row `i` has a defined value in every column. -/
def rowDefined (f : Frame) (i : Nat) : Bool :=
  f.all fun p => (p.2.getD i none).isSome

/-- The keep-mask of `df.dropna()`: true at rows with no NaN. -/
def dropnaMask (f : Frame) : List Bool :=
  (List.range (nRows f)).map fun i => rowDefined f i

/-- Keep the entries of a column selected by a boolean mask. -/
def filterMask : List Bool → Col → Col
  | true :: bs, x :: xs => x :: filterMask bs xs
  | false :: bs, _ :: xs => filterMask bs xs
  | _, _ => []

/-- `df.dropna()`: drop every row that still has a NaN in any column. -/
def dropnaFrame (f : Frame) : Frame :=
  f.map fun p => (p.1, filterMask (dropnaMask f) p.2)

/-- Body of one `clean_data` loop iteration: reading `df[Date]` raises when
the column is missing (frame left unchanged); otherwise forward fill then
dropna.  The `to_datetime` conversion is the identity on our date cells. -/
def cleanStep (f : Frame) : Frame :=
  match getCol "Date" f with
  | none => f
  | some _ => dropnaFrame (ffillFrame f)

/-- `clean_data` over the whole `self.data` dictionary. -/
def clean_data (data : List (String × Frame)) : List (String × Frame) :=
  data.map fun p => (p.1, cleanStep p.2)

/-- A stored DataFrame together with its index: `none` is the default
range index, `some (name, col)` a column moved to the index by
`set_index`. -/
structure PFrame where
  idx : Option (String × Col)
  cols : Frame

/-- Modelled from the spec: the success condition of the external
`seasonal_decompose(.., model=multiplicative, period=252)` call, which is
library code outside this repository — it requires at least 2×252
observations and positive values (the multiplicative model rejects zero
and negative inputs). -/
def decomposeOk (c : Col) : Bool :=
  decide (2 * 252 ≤ c.length) &&
    c.all fun cell =>
      match cell with
      | some x => decide (0 < x)
      | none => false

/-- Body of one `decompose_trends` loop iteration: `set_index(Date)`
mutates the stored frame, then decomposition and plotting run; only on
success is `reset_index` reached (which puts `Date` back as the first
column).  `plotFails` models an exception raised by the plotting calls. -/
def decomposeStep (plotFails : Bool) (p : PFrame) : PFrame × Option Unit :=
  match getCol "Date" p.cols with
  | none => (p, none)
  | some dcol =>
      let p1 : PFrame := ⟨some ("Date", dcol), removeCol "Date" p.cols⟩
      match getCol "Close" p1.cols with
      | none => (p1, none)
      | some closes =>
          if decomposeOk closes && !plotFails then
            (⟨none, ("Date", dcol) :: p1.cols⟩, some ())
          else (p1, none)

/-- The spec's return series: `r[i] = close[i]/close[i-1] - 1`. -/
def dailyReturnSpec (closes : List ℚ) : List ℚ :=
  List.zipWith (fun prev cur => cur / prev - 1) closes closes.tail

/-- Every column, every cell defined (no NaN anywhere). -/
def allDefined (f : Frame) : Bool :=
  f.all fun p => p.2.all fun cell => cell.isSome

/-- Rectangular frame: every column has `nRows f` entries. -/
def wellFormed (f : Frame) : Bool :=
  f.all fun p => p.2.length == nRows f

/-! ### Generic lemmas about the shared per-symbol loop and frame access -/

lemma runOp_lookup_none {α : Type} (step : Frame → Frame × Option α)
    (s : String) :
    ∀ data : List (String × Frame), s ∉ data.map Prod.fst →
      List.lookup s (runOp step data).2 = none := by
  intro data
  induction data with
  | nil => intro _; rfl
  | cons p rest ih =>
      intro hs
      obtain ⟨k, f⟩ := p
      simp only [List.map_cons, List.mem_cons, not_or] at hs
      simp only [runOp]
      cases hstep : (step f).2 with
      | none => exact ih hs.2
      | some v =>
          simp only [List.lookup]
          have : (s == k) = false := by
            simpa [beq_iff_eq] using hs.1
          rw [this]
          exact ih hs.2

lemma runOp_lookup {α : Type} (step : Frame → Frame × Option α)
    (data : List (String × Frame))
    (hnd : (data.map Prod.fst).Nodup) (s : String) :
    List.lookup s (runOp step data).2
      = (List.lookup s data).bind fun f => (step f).2 := by
  induction data with
  | nil => rfl
  | cons p rest ih =>
      obtain ⟨k, f⟩ := p
      simp only [List.map_cons, List.nodup_cons] at hnd
      by_cases hsk : s = k
      · subst hsk
        simp only [runOp, List.lookup, beq_self_eq_true]
        cases hstep : (step f).2 with
        | none =>
            rw [runOp_lookup_none step s rest hnd.1]
            simp [hstep]
        | some v =>
            simp [List.lookup, hstep]
      · have hbeq : (s == k) = false := by simpa [beq_iff_eq] using hsk
        simp only [runOp, List.lookup, hbeq]
        cases hstep : (step f).2 with
        | none => exact ih hnd.2
        | some v => simp only [List.lookup, hbeq]; exact ih hnd.2

lemma getCol_setCol_self (name : String) (col : Col) (f : Frame) :
    getCol name (setCol name col f) = some col := by
  induction f with
  | nil => simp [setCol, getCol]
  | cons p rest ih =>
      obtain ⟨n, c⟩ := p
      by_cases h : n = name
      · simp [setCol, getCol, h]
      · simp [setCol, getCol, h, ih]

lemma getCol_setCol_ne (name m : String) (col : Col) (f : Frame)
    (h : name ≠ m) :
    getCol name (setCol m col f) = getCol name f := by
  induction f with
  | nil => simp [setCol, getCol, Ne.symm h]
  | cons p rest ih =>
      obtain ⟨n, c⟩ := p
      by_cases hm : n = m
      · subst hm
        simp [setCol, getCol, Ne.symm h]
      · by_cases hn : n = name
        · subst hn
          simp [setCol, getCol, hm]
        · simp [setCol, getCol, hm, hn, ih]

/-! ### C1: per-symbol isolation of the statistic operations -/

/-- Claim C1: for each per-symbol statistic operation (volatility, Sharpe
ratio, max drawdown), the result map's entry for each symbol is exactly the
outcome of running that symbol's computation alone: a symbol whose
computation raises is absent from the result map, and every other symbol's
statistic is computed from its own frame, unaffected. -/
theorem per_symbol_isolation (data : List (String × Frame))
    (hnd : (data.map Prod.fst).Nodup) (s : String) :
    List.lookup s (calculate_volatility data).2
        = (List.lookup s data).bind (fun f => (volatilityStep f).2)
  ∧ List.lookup s (calculate_sharpe_ratios data).2
        = (List.lookup s data).bind (fun f => (sharpeStep f).2)
  ∧ List.lookup s (calculate_max_drawdown data).2
        = (List.lookup s data).bind (fun f => (maxDrawdownStep f).2) :=
  ⟨runOp_lookup volatilityStep data hnd s,
   runOp_lookup sharpeStep data hnd s,
   runOp_lookup maxDrawdownStep data hnd s⟩

/-- A two-symbol dictionary: symbol A's frame has no Close column (its
statistic computation raises a KeyError); symbol B's frame is good. -/
def isoData : List (String × Frame) :=
  [("A", [("Open", [some 1])]),
   ("B", [("Date", [some 1, some 2, some 3]),
          ("Close", [some 100, some 110, some 121])])]

theorem per_symbol_isolation_witness :
    (isoData.map Prod.fst).Nodup
  ∧ (List.lookup "A" (calculate_volatility isoData).2
        = (List.lookup "A" isoData).bind (fun f => (volatilityStep f).2)
     ∧ List.lookup "A" (calculate_sharpe_ratios isoData).2
        = (List.lookup "A" isoData).bind (fun f => (sharpeStep f).2)
     ∧ List.lookup "A" (calculate_max_drawdown isoData).2
        = (List.lookup "A" isoData).bind (fun f => (maxDrawdownStep f).2)) :=
  ⟨by decide, per_symbol_isolation isoData (by decide) "A"⟩

/-! ### C2: the scalar statistics mutate the stored frames -/

/-- A one-symbol dictionary with a clean two-row price series. -/
def cexData : List (String × Frame) :=
  [("A", [("Close", [some 1, some 2])])]

/-- Counterexample to claim C2 as stated: `calculate_volatility` does not
leave the stored per-symbol frame unchanged — it appends a `Daily Return`
column that was not there before. -/
theorem scalar_stats_mutate_counterexample :
    (calculate_volatility cexData).1 ≠ cexData
  ∧ getCol "Daily Return" ((volatilityStep [("Close", [some 1, some 2])]).1) ≠ none
  ∧ getCol "Daily Return" [("Close", [some (1:ℚ), some 2])] = none := by
  refine ⟨?_, by decide, by decide⟩
  intro h
  have h2 : getCol "Daily Return"
      ((calculate_volatility cexData).1.map Prod.snd).headI
      = getCol "Daily Return" ((cexData.map Prod.snd).headI) := by rw [h]
  revert h2
  decide

/-- Claim C2 amended: volatility and Sharpe append a `Daily Return` column
to each stored frame, and max drawdown appends `Cumulative Return`, `Peak`
and `Drawdown` columns; every other column — in particular `Close` — is
left unchanged (no values modified). -/
theorem scalar_stats_amended (f : Frame) (name : String) :
    (name ≠ "Daily Return" →
       getCol name (volatilityStep f).1 = getCol name f)
  ∧ (name ≠ "Daily Return" →
       getCol name (sharpeStep f).1 = getCol name f)
  ∧ (name ≠ "Cumulative Return" → name ≠ "Peak" → name ≠ "Drawdown" →
       getCol name (maxDrawdownStep f).1 = getCol name f)
  ∧ (∀ c, getCol "Close" f = some c →
       getCol "Daily Return" (volatilityStep f).1 = some (pctChange c)
       ∧ getCol "Daily Return" (sharpeStep f).1 = some (pctChange c)
       ∧ getCol "Drawdown" (maxDrawdownStep f).1 = some (drawdownCol c)) := by
  refine ⟨?_, ?_, ?_, ?_⟩
  · intro h
    unfold volatilityStep
    cases hc : getCol "Close" f with
    | none => rfl
    | some c => exact getCol_setCol_ne name "Daily Return" (pctChange c) f h
  · intro h
    unfold sharpeStep
    cases hc : getCol "Close" f with
    | none => rfl
    | some c => exact getCol_setCol_ne name "Daily Return" (pctChange c) f h
  · intro h1 h2 h3
    unfold maxDrawdownStep
    cases hc : getCol "Close" f with
    | none => rfl
    | some c =>
        rw [getCol_setCol_ne _ _ _ _ h3, getCol_setCol_ne _ _ _ _ h2,
          getCol_setCol_ne _ _ _ _ h1]
  · intro c hc
    refine ⟨?_, ?_, ?_⟩
    · unfold volatilityStep
      rw [hc]
      exact getCol_setCol_self _ _ _
    · unfold sharpeStep
      rw [hc]
      exact getCol_setCol_self _ _ _
    · unfold maxDrawdownStep
      rw [hc]
      exact getCol_setCol_self _ _ _

theorem scalar_stats_amended_witness :
    (getCol "Close" ((volatilityStep [("Close", [some (1:ℚ), some 2])]).1)
        = getCol "Close" [("Close", [some (1:ℚ), some 2])])
  ∧ (getCol "Close" ((sharpeStep [("Close", [some (1:ℚ), some 2])]).1)
        = getCol "Close" [("Close", [some (1:ℚ), some 2])])
  ∧ (getCol "Close" ((maxDrawdownStep [("Close", [some (1:ℚ), some 2])]).1)
        = getCol "Close" [("Close", [some (1:ℚ), some 2])])
  ∧ getCol "Daily Return" ((volatilityStep [("Close", [some (1:ℚ), some 2])]).1)
        = some (pctChange [some 1, some 2]) :=
  ⟨(scalar_stats_amended _ "Close").1 (by decide),
   (scalar_stats_amended _ "Close").2.1 (by decide),
   (scalar_stats_amended _ "Close").2.2.1 (by decide) (by decide) (by decide),
   ((scalar_stats_amended [("Close", [some 1, some 2])] "Close").2.2.2
      [some 1, some 2] rfl).1⟩

/-! ### C4: the daily-return series -/

lemma pctChange_map_some (c : ℚ) (cs : List ℚ) :
    pctChange ((c :: cs).map some)
      = none :: (List.zipWith (fun prev cur => cur / prev - 1) (c :: cs) cs).map some := by
  simp only [List.map_cons, pctChange]
  have h : (some c :: cs.map some) = ((c :: cs).map some) := by simp
  rw [h, List.zipWith_map, List.map_zipWith]
  rfl

lemma definedVals_pctChange (closes : List ℚ) :
    definedVals (pctChange (closes.map some)) = dailyReturnSpec closes := by
  cases closes with
  | nil => rfl
  | cons c cs =>
      rw [pctChange_map_some]
      simp [definedVals, dailyReturnSpec, List.filterMap_cons, List.filterMap_map,
        Function.comp_def, List.filterMap_some]

/-- Claim C7: the moving average with window size 1 equals the Close
series it was computed from, element for element. -/
theorem moving_average_window_one (col : Col) : rollingMean 1 col = col := by
  apply List.ext_getElem?
  intro i
  by_cases hi : i < col.length
  · have hr : (List.range col.length)[i]? = some i := List.getElem?_range hi
    rw [rollingMean, List.getElem?_map, hr, List.getElem?_eq_getElem hi]
    simp only [Option.map_some']
    rw [if_neg (by omega)]
    have h1 : i + 1 - 1 = i := by omega
    rw [h1, List.drop_eq_getElem_cons hi]
    simp only [List.take_succ_cons, List.take_zero]
    generalize col[i] = x
    cases x with
    | some v => simp
    | none => simp
  · have h1 : (rollingMean 1 col).length = col.length := by simp [rollingMean]
    rw [List.getElem?_eq_none (by omega), List.getElem?_eq_none (by omega)]

/-! ### C3: the Sharpe ratio formula and the zero-variance edge case -/

lemma sampleVar_replicate (n : ℕ) (x : ℚ) :
    sampleVar (List.replicate (n + 2) x) = some 0 := by
  unfold sampleVar
  simp only [List.length_replicate, List.sum_replicate, List.map_replicate]
  rw [if_neg (by omega)]
  have hx : (((n + 2 : ℕ)) : ℚ) ≠ 0 := by positivity
  have h0 : x - ((n + 2 : ℕ) • x) / (((n + 2 : ℕ)) : ℚ) = 0 := by
    rw [nsmul_eq_mul, mul_div_cancel_left₀ _ hx, sub_self]
  rw [h0]
  simp

lemma dailyReturnSpec_replicate (n : ℕ) (q : ℚ) :
    dailyReturnSpec (List.replicate (n + 3) q) = List.replicate (n + 2) (q / q - 1) := by
  unfold dailyReturnSpec
  rw [List.replicate_succ, List.tail_cons, ← List.replicate_succ, List.zipWith_replicate]
  congr 1
  omega

/-- Claim C3: `calculate_sharpe_ratio` computes
`mean(DailyReturn) / stddev(DailyReturn) * sqrt(252)` with the
annualization constant fixed at 252, where DailyReturn is the spec's
return series; and for a constant (hence zero-variance) price series the
operation still produces a defined value rather than raising. -/
theorem sharpe_ratio_formula :
    (∀ closes : List ℚ,
       (sharpeStep [("Close", closes.map some)]).2
         = some (match listMean (dailyReturnSpec closes),
                       sampleVar (dailyReturnSpec closes) with
                 | some m, some v =>
                     some ((m : ℝ) / Real.sqrt (v : ℝ) * Real.sqrt 252)
                 | _, _ => none))
  ∧ (∀ (q : ℚ) (n : ℕ),
       sampleVar (dailyReturnSpec (List.replicate (n + 3) q)) = some 0
       ∧ ∃ r : ℝ,
           (sharpeStep [("Close", (List.replicate (n + 3) q).map some)]).2
             = some (some r)) := by
  constructor
  · intro closes
    have h1 : (sharpeStep [("Close", closes.map some)]).2
        = some (sharpeOf (pctChange (closes.map some))) := by
      simp [sharpeStep, getCol]
    rw [h1]
    unfold sharpeOf
    rw [definedVals_pctChange]
  · intro q n
    constructor
    · rw [dailyReturnSpec_replicate]
      exact sampleVar_replicate n _
    · have h1 : (sharpeStep [("Close", (List.replicate (n + 3) q).map some)]).2
          = some (sharpeOf (pctChange ((List.replicate (n + 3) q).map some))) := by
        simp [sharpeStep, getCol]
      rw [h1]
      unfold sharpeOf
      rw [definedVals_pctChange, dailyReturnSpec_replicate]
      have hm : listMean (List.replicate (n + 2) (q / q - 1))
          = some ((List.replicate (n + 2) (q / q - 1)).sum
                    / ((List.replicate (n + 2) (q / q - 1)).length : ℚ)) := by
        unfold listMean
        rw [if_neg (by simp)]
      rw [hm, sampleVar_replicate]
      exact ⟨_, rfl⟩

/-! ### C5: the cumulative-return telescoping identity -/

lemma getLast?_cons_of_ne_nil {α : Type} (a : α) {l : List α} (h : l ≠ []) :
    (a :: l).getLast? = l.getLast? := by
  cases l with
  | nil => exact absurd rfl h
  | cons b bs => exact List.getLast?_cons_cons

lemma length_cumprodFrom (acc : ℚ) (l : Col) :
    (cumprodFrom acc l).length = l.length := by
  induction l generalizing acc with
  | nil => rfl
  | cons x xs ih => cases x <;> simp [cumprodFrom, ih]

lemma oadd1_pctChange (c : ℚ) (cs : List ℚ) :
    oadd1 (pctChange ((c :: cs).map some))
      = none :: (List.zipWith (fun prev cur => cur / prev) (c :: cs) cs).map some := by
  rw [pctChange_map_some]
  unfold oadd1
  simp only [List.map_cons, Option.map_none', List.map_map]
  congr 1
  rw [List.map_zipWith, List.map_zipWith]
  congr 1
  funext x y
  simp only [Function.comp_apply, Option.map_some']
  congr 1
  ring

lemma cumprod_ratio_getLast (cs : List ℚ) :
    ∀ (p acc : ℚ), p ≠ 0 → (∀ x ∈ cs, x ≠ 0) → cs ≠ [] →
      (cumprodFrom acc
          ((List.zipWith (fun prev cur => cur / prev) (p :: cs) cs).map some)).getLast?
        = cs.getLast?.map fun last => some (acc * (last / p)) := by
  induction cs with
  | nil => intro p acc _ _ h; exact absurd rfl h
  | cons d ds ih =>
      intro p acc hp hnz _
      have hd : d ≠ 0 := hnz d (by simp)
      cases ds with
      | nil => simp [cumprodFrom]
      | cons e ds2 =>
          simp only [List.zipWith_cons_cons, List.map_cons, cumprodFrom]
          rw [getLast?_cons_of_ne_nil _ (by simp)]
          have hfold :
              some (acc * (d / p) * (e / d)) ::
                cumprodFrom (acc * (d / p) * (e / d))
                  ((List.zipWith (fun prev cur => cur / prev) (e :: ds2) ds2).map some)
              = cumprodFrom (acc * (d / p))
                  ((List.zipWith (fun prev cur => cur / prev)
                      (d :: e :: ds2) (e :: ds2)).map some) := by
            simp only [List.zipWith_cons_cons, List.map_cons, cumprodFrom]
          rw [hfold]
          rw [ih d (acc * (d / p)) hd
            (fun x hx => hnz x (List.mem_cons_of_mem d hx)) (by simp)]
          rw [show (d :: e :: ds2).getLast? = (e :: ds2).getLast? from
            List.getLast?_cons_cons]
          obtain ⟨L, hL⟩ := Option.isSome_iff_exists.mp
            (List.getLast?_isSome.mpr (by simp : (e :: ds2) ≠ ([] : List ℚ)))
          rw [hL]
          simp only [Option.map_some', Option.some.injEq]
          field_simp
          ring

/-- Claim C5 amended: for a price series with at least two observations and
no zero close, the final cumulative return equals
`Close[last]/Close[0] - 1`. -/
theorem cumulative_return_telescoping (c : ℚ) (cs : List ℚ) (hcs : cs ≠ [])
    (hc : c ≠ 0) (hnz : ∀ x ∈ cs, x ≠ 0) :
    (cumulativeReturn ((c :: cs).map some)).getLast?
      = cs.getLast?.map fun last => some (last / c - 1) := by
  unfold cumulativeReturn
  rw [oadd1_pctChange]
  simp only [cumprodFrom]
  unfold osub1
  simp only [List.map_cons, Option.map_none']
  rw [getLast?_cons_of_ne_nil _ (by
    intro hnil
    have hlen := congrArg List.length hnil
    simp only [List.length_map, length_cumprodFrom, List.length_zipWith,
      List.length_cons, List.length_nil] at hlen
    cases cs with
    | nil => exact hcs rfl
    | cons d ds => simp at hlen)]
  rw [List.getLast?_map, cumprod_ratio_getLast cs c 1 hc hnz hcs]
  obtain ⟨L, hL⟩ := Option.isSome_iff_exists.mp
    (List.getLast?_isSome.mpr hcs)
  rw [hL]
  simp only [Option.map_some', Option.map_some', one_mul]

theorem cumulative_return_telescoping_witness :
    (([110, 121] : List ℚ) ≠ []
      ∧ (100 : ℚ) ≠ 0
      ∧ (∀ x ∈ ([110, 121] : List ℚ), x ≠ 0))
  ∧ (cumulativeReturn (((100 : ℚ) :: [110, 121]).map some)).getLast?
      = ([110, 121] : List ℚ).getLast?.map fun last => some (last / 100 - 1) :=
  ⟨⟨by decide, by decide, by decide⟩,
   cumulative_return_telescoping 100 [110, 121] (by decide) (by decide) (by decide)⟩

/-- Counterexample to claim C5 as stated ("for every price series"): for
the one-observation series `[5]` the final cumulative return is NaN, not
`Close[last]/Close[0] - 1 = 0`; and for `[1, 0, 1]` (a zero close) the
final cumulative return is defined but differs from
`Close[last]/Close[0] - 1 = 0` (in pandas the division by a zero close
makes it inf/NaN). -/
theorem cumulative_return_counterexample :
    ((cumulativeReturn [some (5:ℚ)]).getLast? = some none
     ∧ (some (none : Option ℚ)) ≠ some (some ((5:ℚ) / 5 - 1)))
  ∧ (cumulativeReturn [some (1:ℚ), some 0, some 1]).getLast?
      ≠ some (some ((1:ℚ) / 1 - 1)) := by
  refine ⟨⟨rfl, by simp⟩, ?_⟩
  have h : (cumulativeReturn [some (1:ℚ), some 0, some 1]).getLast?
      = some (some (1 * (0 / 1 - 1 + 1) * (1 / 0 - 1 + 1) - 1)) := by
    simp only [cumulativeReturn, pctChange, oadd1, osub1, List.zipWith_cons_cons,
      List.zipWith_nil_right, List.map_cons, List.map_nil, Option.map_none',
      Option.map_some', Option.some_bind, Option.none_bind, cumprodFrom]
    norm_num [List.getLast?]
  rw [h]
  intro hcontra
  rw [Option.some.injEq, Option.some.injEq] at hcontra
  norm_num at hcontra

/-! ### C6: drawdowns are nonpositive -/

lemma drawdown_defined_nonpos (l : Col) :
    ∀ (acc : Option ℚ), ∀ x ∈ definedVals (colSub l (cummaxFrom acc l)), x ≤ 0 := by
  induction l with
  | nil => intro acc x hx; simp [colSub, definedVals] at hx
  | cons cell rest ih =>
      intro acc x hx
      cases cell with
      | none =>
          simp only [cummaxFrom, colSub, List.zipWith_cons_cons, Option.none_bind,
            definedVals, List.filterMap_cons] at hx
          exact ih acc x hx
      | some v =>
          simp only [cummaxFrom, colSub, List.zipWith_cons_cons, Option.some_bind,
            Option.map_some', definedVals, List.filterMap_cons, id_eq,
            List.mem_cons] at hx
          rcases hx with hx | hx
          · subst hx
            cases acc with
            | none => simp
            | some a => simp
          · exact ih _ x hx

lemma foldl_min_nonpos (x : ℚ) (xs : List ℚ) (h : ∀ y ∈ x :: xs, y ≤ 0) :
    xs.foldl min x ≤ 0 := by
  induction xs generalizing x with
  | nil => exact h x (by simp)
  | cons z zs ih =>
      apply ih
      intro y hy
      rcases List.mem_cons.mp hy with hy | hy
      · subst hy
        exact le_trans (min_le_left x z) (h x (by simp))
      · exact h y (by simp [hy])

lemma cumulativeReturn_cons_cons (a b : ℚ) (t : List ℚ) :
    ∃ y rest, cumulativeReturn ((a :: b :: t).map some) = none :: some y :: rest := by
  unfold cumulativeReturn
  rw [oadd1_pctChange]
  simp only [List.zipWith_cons_cons, List.map_cons, cumprodFrom, osub1,
    Option.map_none', Option.map_some']
  exact ⟨_, _, rfl⟩

lemma definedVals_drawdown_cons (a b : ℚ) (t : List ℚ) :
    ∃ z zs, definedVals (drawdownCol ((a :: b :: t).map some)) = z :: zs := by
  obtain ⟨y, rest, hcr⟩ := cumulativeReturn_cons_cons a b t
  unfold drawdownCol
  rw [hcr]
  simp only [cummaxFrom, colSub, List.zipWith_cons_cons, Option.none_bind,
    Option.some_bind, Option.map_some', definedVals, List.filterMap_cons, id_eq]
  exact ⟨_, _, rfl⟩

/-- Claim C6 amended: every defined Drawdown entry is nonpositive, and for
a price series with at least two observations and no zero close
`calculate_max_drawdown` returns a defined value `min(Drawdown) ≤ 0` (a
one-row or empty series yields NaN instead; a zero close sends pandas down
an inf/NaN path this ℚ embedding does not model, so such series are
excluded here just as in the amended C5). -/
theorem max_drawdown_nonpos (closes : List ℚ) (h2 : 2 ≤ closes.length)
    (_hnz : ∀ x ∈ closes, x ≠ 0) :
    (∀ x ∈ definedVals (drawdownCol (closes.map some)), x ≤ 0)
  ∧ ∃ v : ℚ, (maxDrawdownStep [("Close", closes.map some)]).2 = some (some v)
      ∧ v ≤ 0 := by
  have hall : ∀ x ∈ definedVals (drawdownCol (closes.map some)), x ≤ 0 :=
    drawdown_defined_nonpos _ none
  refine ⟨hall, ?_⟩
  cases closes with
  | nil => simp at h2
  | cons a rest =>
      cases rest with
      | nil => simp at h2
      | cons b t =>
          obtain ⟨z, zs, hz⟩ := definedVals_drawdown_cons a b t
          have hstep : (maxDrawdownStep [("Close", ((a :: b :: t)).map some)]).2
              = some (colMin (drawdownCol ((a :: b :: t).map some))) := by
            simp [maxDrawdownStep, getCol, drawdownCol]
          rw [hstep]
          unfold colMin
          rw [hz]
          refine ⟨zs.foldl min z, rfl, foldl_min_nonpos z zs ?_⟩
          intro y hy
          apply hall
          rw [hz]
          exact hy

theorem max_drawdown_nonpos_witness :
    (2 ≤ (([100, 50, 100] : List ℚ)).length
      ∧ (∀ x ∈ ([100, 50, 100] : List ℚ), x ≠ 0))
  ∧ ((∀ x ∈ definedVals (drawdownCol (([100, 50, 100] : List ℚ).map some)), x ≤ 0)
     ∧ ∃ v : ℚ, (maxDrawdownStep [("Close", ([100, 50, 100] : List ℚ).map some)]).2
           = some (some v) ∧ v ≤ 0) :=
  ⟨⟨by decide, by decide⟩,
   max_drawdown_nonpos [100, 50, 100] (by decide) (by decide)⟩

/-- Counterexample to claim C6 as stated ("always ≤ 0"): on a one-row
price series the returned max drawdown is NaN (`min` of an empty defined
set), not a number ≤ 0. -/
theorem max_drawdown_counterexample :
    (maxDrawdownStep [("Close", [some (100:ℚ)])]).2 = some none
  ∧ ¬ ∃ v : ℚ, (maxDrawdownStep [("Close", [some (100:ℚ)])]).2 = some (some v)
        ∧ v ≤ 0 := by
  have h : (maxDrawdownStep [("Close", [some (100:ℚ)])]).2 = some none := by decide
  refine ⟨h, ?_⟩
  rintro ⟨v, hv, _⟩
  rw [h] at hv
  simp at hv

/-! ### C8 and C10: the cleaning pipeline -/

lemma ffillCol_of_allSome (c : Col) (h : ∀ x ∈ c, x.isSome = true) :
    ∀ last, ffillCol last c = c := by
  induction c with
  | nil => intro last; rfl
  | cons x xs ih =>
      intro last
      cases x with
      | none => simpa using h none (by simp)
      | some v =>
          simp only [ffillCol]
          rw [ih (fun y hy => h y (by simp [hy])) (some v)]

lemma length_ffillCol (c : Col) : ∀ last, (ffillCol last c).length = c.length := by
  induction c with
  | nil => intro last; rfl
  | cons x xs ih =>
      intro last
      cases x <;> simp [ffillCol, ih]

lemma length_filterMask_le (m : List Bool) : ∀ c : Col,
    (filterMask m c).length ≤ c.length := by
  induction m with
  | nil => intro c; simp [filterMask]
  | cons b bs ih =>
      intro c
      cases c with
      | nil => cases b <;> simp [filterMask]
      | cons x xs =>
          cases b with
          | true =>
              simp only [filterMask, List.length_cons]
              exact Nat.succ_le_succ (ih xs)
          | false =>
              simp only [filterMask, List.length_cons]
              exact Nat.le_succ_of_le (ih xs)

lemma filterMask_replicate_true : ∀ (n : Nat) (c : Col), c.length ≤ n →
    filterMask (List.replicate n true) c = c := by
  intro n
  induction n with
  | zero =>
      intro c hc
      cases c with
      | nil => rfl
      | cons x xs => simp at hc
  | succ k ih =>
      intro c hc
      cases c with
      | nil => rfl
      | cons x xs =>
          rw [List.replicate_succ]
          simp only [filterMask]
          rw [ih xs (by simpa using hc)]

lemma length_filterMask_eq (m : List Bool) : ∀ (c1 c2 : Col), c1.length = c2.length →
    (filterMask m c1).length = (filterMask m c2).length := by
  induction m with
  | nil => intro c1 c2 _; simp [filterMask]
  | cons b bs ih =>
      intro c1 c2 h
      cases c1 with
      | nil =>
          cases c2 with
          | nil => rfl
          | cons y ys => simp at h
      | cons x xs =>
          cases c2 with
          | nil => simp at h
          | cons y ys =>
              cases b with
              | true =>
                  simp only [filterMask, List.length_cons]
                  rw [ih xs ys (by simpa using h)]
              | false =>
                  simp only [filterMask]
                  exact ih xs ys (by simpa using h)

lemma mem_filterMask {m : List Bool} {x : Cell} : ∀ {c : Col},
    x ∈ filterMask m c → ∃ i, m.getD i false = true ∧ c.getD i none = x := by
  induction m with
  | nil => intro c h; simp [filterMask] at h
  | cons b bs ih =>
      intro c h
      cases c with
      | nil => cases b <;> simp [filterMask] at h
      | cons y ys =>
          cases b with
          | true =>
              simp only [filterMask] at h
              rcases List.mem_cons.mp h with h | h
              · exact ⟨0, rfl, by simp [h.symm]⟩
              · obtain ⟨i, h1, h2⟩ := ih h
                exact ⟨i + 1, by simpa using h1, by simpa using h2⟩
          | false =>
              simp only [filterMask] at h
              obtain ⟨i, h1, h2⟩ := ih h
              exact ⟨i + 1, by simpa using h1, by simpa using h2⟩

lemma rowDefined_of_allDefined (f : Frame) (hw : wellFormed f = true)
    (hd : allDefined f = true) (i : Nat) (hi : i < nRows f) :
    rowDefined f i = true := by
  unfold rowDefined
  rw [List.all_eq_true]
  intro p hp
  have hlen : p.2.length = nRows f := by
    have := (List.all_eq_true.mp hw) p hp
    simpa using this
  have hi2 : i < p.2.length := by omega
  rw [List.getD_eq_getElem?_getD, List.getElem?_eq_getElem hi2]
  simp only [Option.getD_some]
  exact (List.all_eq_true.mp ((List.all_eq_true.mp hd) p hp)) _ (List.getElem_mem hi2)

lemma dropnaMask_of_allDefined (f : Frame) (hw : wellFormed f = true)
    (hd : allDefined f = true) :
    dropnaMask f = List.replicate (nRows f) true := by
  unfold dropnaMask
  have h1 : ∀ i ∈ List.range (nRows f), rowDefined f i = true := by
    intro i hi
    exact rowDefined_of_allDefined f hw hd i (List.mem_range.mp hi)
  rw [List.map_congr_left h1, List.map_const', List.length_range]

lemma ffillFrame_of_allDefined (f : Frame) (hd : allDefined f = true) :
    ffillFrame f = f := by
  unfold ffillFrame
  have h : ∀ p ∈ f, ((p.1, ffillCol none p.2) : String × Col) = id p := by
    intro p hp
    have hcol : ∀ x ∈ p.2, x.isSome = true :=
      List.all_eq_true.mp ((List.all_eq_true.mp hd) p hp)
    simp [ffillCol_of_allSome p.2 hcol none]
  rw [List.map_congr_left h, List.map_id]

lemma dropnaFrame_of_allDefined (f : Frame) (hw : wellFormed f = true)
    (hd : allDefined f = true) : dropnaFrame f = f := by
  unfold dropnaFrame
  rw [dropnaMask_of_allDefined f hw hd]
  have h : ∀ p ∈ f,
      ((p.1, filterMask (List.replicate (nRows f) true) p.2) : String × Col) = id p := by
    intro p hp
    have hlen : p.2.length = nRows f := by
      have := (List.all_eq_true.mp hw) p hp
      simpa using this
    simp [filterMask_replicate_true (nRows f) p.2 (le_of_eq hlen)]
  rw [List.map_congr_left h, List.map_id]

lemma cleanStep_of_clean (f : Frame) (hw : wellFormed f = true)
    (hd : allDefined f = true) : cleanStep f = f := by
  unfold cleanStep
  cases hdate : getCol "Date" f with
  | none => rfl
  | some dcol =>
      rw [ffillFrame_of_allDefined f hd, dropnaFrame_of_allDefined f hw hd]

lemma nRows_ffillFrame (f : Frame) : nRows (ffillFrame f) = nRows f := by
  cases f with
  | nil => rfl
  | cons p rest => simp [ffillFrame, nRows, length_ffillCol]

lemma wellFormed_ffillFrame (f : Frame) (hw : wellFormed f = true) :
    wellFormed (ffillFrame f) = true := by
  unfold wellFormed at hw ⊢
  rw [List.all_eq_true] at hw ⊢
  intro p hp
  unfold ffillFrame at hp
  obtain ⟨q, hq, rfl⟩ := List.mem_map.mp hp
  simp only [length_ffillCol, nRows_ffillFrame]
  exact hw q hq

lemma wellFormed_dropnaFrame (f : Frame) (hw : wellFormed f = true) :
    wellFormed (dropnaFrame f) = true := by
  unfold wellFormed at hw ⊢
  rw [List.all_eq_true] at hw ⊢
  intro p hp
  unfold dropnaFrame at hp ⊢
  obtain ⟨q, hq, rfl⟩ := List.mem_map.mp hp
  cases f with
  | nil => cases hq
  | cons p0 rest =>
      have hq2 : q.2.length = p0.2.length := by
        have h1 := hw q hq
        simp only [beq_iff_eq, nRows] at h1
        exact h1
      simp only [List.map_cons, nRows, beq_iff_eq]
      exact length_filterMask_eq _ _ _ hq2

lemma allDefined_dropnaFrame (f : Frame) : allDefined (dropnaFrame f) = true := by
  unfold allDefined
  rw [List.all_eq_true]
  intro p hp
  rw [List.all_eq_true]
  intro x hx
  unfold dropnaFrame at hp
  obtain ⟨q, hq, rfl⟩ := List.mem_map.mp hp
  obtain ⟨i, hm, hcell⟩ := mem_filterMask hx
  have hrow : rowDefined f i = true := by
    unfold dropnaMask at hm
    by_cases hi : i < nRows f
    · rw [List.getD_eq_getElem?_getD, List.getElem?_map, List.getElem?_range hi] at hm
      simpa using hm
    · rw [List.getD_eq_getElem?_getD,
        List.getElem?_eq_none (by simp; omega)] at hm
      simp at hm
  unfold rowDefined at hrow
  have := (List.all_eq_true.mp hrow) q hq
  rw [hcell] at this
  exact this

/-- Claim C8: cleaning an already-clean (rectangular, no missing values)
frame returns it unchanged, and cleaning is idempotent on every
rectangular frame. -/
theorem clean_idempotent (f : Frame) (hw : wellFormed f = true) :
    (allDefined f = true → cleanStep f = f)
  ∧ cleanStep (cleanStep f) = cleanStep f := by
  constructor
  · intro hd
    exact cleanStep_of_clean f hw hd
  · cases hdate : getCol "Date" f with
    | none =>
        have h1 : cleanStep f = f := by
          unfold cleanStep
          rw [hdate]
        rw [h1]
        exact h1
    | some dcol =>
        have hstep : cleanStep f = dropnaFrame (ffillFrame f) := by
          unfold cleanStep
          rw [hdate]
        rw [hstep]
        exact cleanStep_of_clean _
          (wellFormed_dropnaFrame _ (wellFormed_ffillFrame f hw))
          (allDefined_dropnaFrame _)

/-- A clean two-column frame used as the idempotence witness. -/
def cleanDemo : Frame := [("Date", [some 1, some 2]), ("Close", [some 3, some 4])]

theorem clean_idempotent_witness :
    wellFormed cleanDemo = true
  ∧ allDefined cleanDemo = true
  ∧ cleanStep cleanDemo = cleanDemo
  ∧ cleanStep (cleanStep cleanDemo) = cleanStep cleanDemo :=
  ⟨by decide, by decide,
   (clean_idempotent cleanDemo (by decide)).1 (by decide),
   (clean_idempotent cleanDemo (by decide)).2⟩

/-- Claim C10: `clean_data` forward-fills every column (not only Close)
and then drops any row with a remaining missing value in any column.
First conjunct: a first row whose Close is present but whose Volume is
missing (no prior valid value exists) is removed, so the cleaned frame
has fewer rows than the input.  Second conjunct: a later Volume gap with
a prior valid value is forward-filled from that same column and the row
is kept. -/
theorem clean_ffill_all_columns :
    (∀ (d c : ℚ) (dr cr vr : Col),
       nRows (cleanStep
           [("Date", some d :: dr), ("Close", some c :: cr), ("Volume", none :: vr)])
         ≤ dr.length)
  ∧ (∀ (d1 d2 c1 c2 v : ℚ),
       cleanStep [("Date", [some d1, some d2]), ("Close", [some c1, some c2]),
                  ("Volume", [some v, none])]
         = [("Date", [some d1, some d2]), ("Close", [some c1, some c2]),
            ("Volume", [some v, some v])]) := by
  constructor
  · intro d c dr cr vr
    have hclean : cleanStep
        [("Date", some d :: dr), ("Close", some c :: cr), ("Volume", none :: vr)]
        = dropnaFrame (ffillFrame
            [("Date", some d :: dr), ("Close", some c :: cr), ("Volume", none :: vr)]) := by
      unfold cleanStep
      rw [show getCol "Date"
          [("Date", some d :: dr), ("Close", some c :: cr), ("Volume", none :: vr)]
          = some (some d :: dr) from by simp [getCol]]
    rw [hclean]
    have hff : ffillFrame
        [("Date", some d :: dr), ("Close", some c :: cr), ("Volume", none :: vr)]
        = [("Date", some d :: ffillCol (some d) dr),
           ("Close", some c :: ffillCol (some c) cr),
           ("Volume", none :: ffillCol none vr)] := by
      simp [ffillFrame, ffillCol]
    rw [hff]
    have hn : nRows [("Date", some d :: ffillCol (some d) dr),
        ("Close", some c :: ffillCol (some c) cr),
        ("Volume", none :: ffillCol none vr)] = dr.length + 1 := by
      simp [nRows, length_ffillCol]
    have hrow0 : rowDefined [("Date", some d :: ffillCol (some d) dr),
        ("Close", some c :: ffillCol (some c) cr),
        ("Volume", none :: ffillCol none vr)] 0 = false := by
      simp [rowDefined]
    have hmask : dropnaMask [("Date", some d :: ffillCol (some d) dr),
        ("Close", some c :: ffillCol (some c) cr),
        ("Volume", none :: ffillCol none vr)]
        = false :: (List.range dr.length).map (fun i =>
            rowDefined [("Date", some d :: ffillCol (some d) dr),
              ("Close", some c :: ffillCol (some c) cr),
              ("Volume", none :: ffillCol none vr)] (i + 1)) := by
      unfold dropnaMask
      rw [hn, List.range_succ_eq_map, List.map_cons, hrow0, List.map_map]
      rfl
    have hfinal : nRows (dropnaFrame [("Date", some d :: ffillCol (some d) dr),
        ("Close", some c :: ffillCol (some c) cr),
        ("Volume", none :: ffillCol none vr)])
        = (filterMask (dropnaMask [("Date", some d :: ffillCol (some d) dr),
            ("Close", some c :: ffillCol (some c) cr),
            ("Volume", none :: ffillCol none vr)])
            (some d :: ffillCol (some d) dr)).length := by
      simp [dropnaFrame, nRows]
    rw [hfinal, hmask]
    simp only [filterMask]
    calc (filterMask ((List.range dr.length).map _) (ffillCol (some d) dr)).length
        ≤ (ffillCol (some d) dr).length := length_filterMask_le _ _
      _ = dr.length := length_ffillCol dr (some d)
  · intro d1 d2 c1 c2 v
    rfl

/-! ### C9: decompose_trends leaves the index mutated on failure -/

lemma getCol_eq_none_of_not_mem (name : String) (f : Frame)
    (h : name ∉ f.map Prod.fst) : getCol name f = none := by
  induction f with
  | nil => rfl
  | cons p rest ih =>
      obtain ⟨n, c⟩ := p
      simp only [List.map_cons, List.mem_cons, not_or] at h
      rw [show getCol name ((n, c) :: rest) = if n = name then some c else getCol name rest
        from rfl]
      rw [if_neg (fun hh => h.1 hh.symm)]
      exact ih h.2

lemma getCol_removeCol_self (name : String) (f : Frame)
    (hnd : (f.map Prod.fst).Nodup) :
    getCol name (removeCol name f) = none := by
  induction f with
  | nil => rfl
  | cons p rest ih =>
      obtain ⟨n, c⟩ := p
      simp only [List.map_cons, List.nodup_cons] at hnd
      by_cases h : n = name
      · subst h
        simp only [removeCol, if_pos rfl]
        exact getCol_eq_none_of_not_mem n rest hnd.1
      · rw [show removeCol name ((n, c) :: rest)
            = (n, c) :: removeCol name rest from by simp [removeCol, h]]
        rw [show getCol name ((n, c) :: removeCol name rest)
            = if n = name then some c else getCol name (removeCol name rest) from rfl]
        rw [if_neg h]
        exact ih hnd.2

/-- Claim C9: when `decompose_trends` fails for a symbol after
`set_index(Date)` has run (decomposition or plotting raises), the stored
frame keeps `Date` as its index: the `reset_index` call is never reached,
so the `Date` column is absent from the stored frame afterwards and its
data sits in the index instead. -/
theorem decompose_failure_state (plotFails : Bool) (p : PFrame) (dcol : Col)
    (hnd : (p.cols.map Prod.fst).Nodup)
    (hd : getCol "Date" p.cols = some dcol)
    (hfail : (decomposeStep plotFails p).2 = none) :
    ((decomposeStep plotFails p).1).idx = some ("Date", dcol)
  ∧ getCol "Date" ((decomposeStep plotFails p).1).cols = none := by
  unfold decomposeStep at hfail ⊢
  rw [hd] at hfail ⊢
  simp only at hfail ⊢
  cases hc : getCol "Close" (removeCol "Date" p.cols) with
  | none =>
      exact ⟨rfl, getCol_removeCol_self "Date" p.cols hnd⟩
  | some closes =>
      rw [hc] at hfail
      dsimp only at hfail ⊢
      by_cases hok : (decomposeOk closes && !plotFails) = true
      · rw [if_pos hok] at hfail
        simp at hfail
      · rw [if_neg hok] at hfail ⊢
        exact ⟨rfl, getCol_removeCol_self "Date" p.cols hnd⟩

/-- A stored frame whose Close series is far too short for
`seasonal_decompose` (1 < 2×252 observations). -/
def decomposeDemo : PFrame := ⟨none, [("Date", [some 1]), ("Close", [some 2])]⟩

theorem decompose_failure_state_witness :
    ((decomposeDemo.cols.map Prod.fst).Nodup
      ∧ getCol "Date" decomposeDemo.cols = some [some 1]
      ∧ (decomposeStep false decomposeDemo).2 = none)
  ∧ (((decomposeStep false decomposeDemo).1).idx = some ("Date", [some 1])
      ∧ getCol "Date" ((decomposeStep false decomposeDemo).1).cols = none) :=
  ⟨⟨by decide, by decide, by decide⟩,
   decompose_failure_state false decomposeDemo [some 1] (by decide) (by decide)
     (by decide)⟩
